import Mathlib

/-!
Verification of `src/dist/snippets/exif-edit-9bacc30ad9f8dd48/js/heic_handler.js`.

The file embeds the two active functions of the handler:

* `ensureJpegBytes(file)` — classifies the input as HEIC (by declared MIME
  type or case-insensitive `.heic` filename suffix), passes non-HEIC inputs
  through unchanged, and for HEIC inputs runs `exifr.parse`, `heic2any`,
  a blob byte-read, and `sanitizeExif`, all inside one `try`/`catch` that
  converts any thrown error into `{jpeg: new Uint8Array([]), exif: {}}`.

* `sanitizeExif(obj) = JSON.parse(JSON.stringify(obj, replacer))` where the
  replacer maps the eight numeric typed-array classes (`Uint8Array`,
  `Uint16Array`, `Uint32Array`, `Int8Array`, `Int16Array`, `Int32Array`,
  `Float32Array`, `Float64Array`) to `Array.from(value)`.

JavaScript values are modelled by the mutual inductive `JSValue` below.
Numbers are modelled as `Option Int`: `some i` is a finite number (its
exact value is irrelevant to every property proved here, only identity
matters, so an integer id suffices), `none` is a non-finite number
(`NaN`, `Infinity`, `-Infinity`).  The serialize/parse round trip is
modelled by `serProp`, which follows the ECMAScript `JSON.stringify`
algorithm (SerializeJSONProperty with the handler's replacer) composed
with `JSON.parse` of the produced text; since ECMAScript number-to-string
conversion round-trips finite doubles exactly and string/boolean/null
literals round-trip exactly, the composition is a pure value-to-value
function.  The relevant stringify facts embedded here:

* `undefined` serializes to nothing: dropped as an object property,
  emitted as `null` inside an array, and at the root `JSON.stringify`
  returns `undefined`, so `JSON.parse(undefined)` throws a `SyntaxError`;
* a non-finite number is emitted as the literal `null`;
* a typed array is first replaced by the plain array `Array.from(value)`
  whose elements are the buffer's numbers, and that array is then
  serialized element by element;
* a `BigInt64Array`/`BigUint64Array` is not matched by the replacer and is
  serialized as an ordinary object whose own enumerable properties are its
  indices with BigInt values; serializing a BigInt value throws a
  `TypeError`, so a non-empty BigInt buffer aborts the stringify, while an
  empty one produces `{}`.

Thrown exceptions are modelled by `Except Unit` (the error's identity is
never observed by the handler).  Case folding of filenames is modelled by
ASCII `Char.toLower`, which agrees with JavaScript `toLowerCase` on the
ASCII strings involved in every claim.
-/

/-- The eight typed-array classes recognized by `sanitizeExif`'s replacer. -/
inductive TAKind : Type where
  | uint8 | uint16 | uint32 | int8 | int16 | int32 | float32 | float64
deriving DecidableEq, Repr

mutual

/-- A JavaScript value as seen by `heic_handler.js`: primitives, arrays,
plain objects, the eight numeric typed-array kinds, and the two BigInt
typed-array kinds (`bigArr true` = `BigInt64Array`, `bigArr false` =
`BigUint64Array`).  `num (some i)` is a finite number, `num none` a
non-finite one. -/
inductive JSValue : Type where
  | null : JSValue
  | undef : JSValue
  | boolV : Bool → JSValue
  | num : Option Int → JSValue
  | str : String → JSValue
  | arr : JSList → JSValue
  | obj : JSFields → JSValue
  | typedArr : TAKind → List (Option Int) → JSValue
  | bigArr : Bool → List Int → JSValue

/-- Elements of a JavaScript array, in order. -/
inductive JSList : Type where
  | nil : JSList
  | cons : JSValue → JSList → JSList

/-- Properties of a JavaScript object, in insertion order. -/
inductive JSFields : Type where
  | fnil : JSFields
  | fcons : String → JSValue → JSFields → JSFields

end

/-- Convert a Lean list of values to a `JSList`. -/
def ofList : List JSValue → JSList
  | [] => .nil
  | v :: tl => .cons v (ofList tl)

/-- The replacer of `sanitizeExif`: a value of one of the eight recognized
typed-array kinds becomes `Array.from(value)`, the plain array of its
numeric elements in order; every other value is returned unchanged. -/
def replacer : JSValue → JSValue
  | .typedArr _ elems => .arr (ofList (elems.map JSValue.num))
  | v => v

/-- How a single number coming out of a typed array is emitted by
`JSON.stringify`: a finite number round-trips to itself, a non-finite one
is emitted as the literal `null`. -/
def jsonNum : Option Int → JSValue
  | some i => .num (some i)
  | none => .null

mutual

/-- Step function SerializeJSONProperty of `JSON.stringify(·, replacer)` composed with
`JSON.parse` of the emitted text.  `Except.error ()` models stringify
throwing (a BigInt value was reached); `Except.ok none` models the
property serializing to `undefined` (emitted nowhere); `Except.ok (some w)`
models the property emitting text that `JSON.parse` reads back as `w`.
The `typedArr` case is the replacer's plain array `Array.from(value)`
serialized element by element (each element is a number, so it is emitted
by `jsonNum`); see `serProp_replacer` below for the equation connecting it
to `replacer`. -/
def serProp : JSValue → Except Unit (Option JSValue)
  | .null => .ok (some .null)
  | .undef => .ok none
  | .boolV b => .ok (some (.boolV b))
  | .num (some i) => .ok (some (.num (some i)))
  | .num none => .ok (some .null)
  | .str s => .ok (some (.str s))
  | .arr l =>
    match serList l with
    | .error e => .error e
    | .ok l2 => .ok (some (.arr l2))
  | .obj fs =>
    match serFields fs with
    | .error e => .error e
    | .ok fs2 => .ok (some (.obj fs2))
  | .typedArr _ elems => .ok (some (.arr (ofList (elems.map jsonNum))))
  | .bigArr _ [] => .ok (some (.obj .fnil))
  | .bigArr _ (_ :: _) => .error ()

/-- Step function SerializeJSONArray: elements in order; a thrown error aborts the
whole stringify; an element serializing to `undefined` is emitted as
`null`. -/
def serList : JSList → Except Unit JSList
  | .nil => .ok .nil
  | .cons v tl =>
    match serProp v with
    | .error e => .error e
    | .ok v2 =>
      match serList tl with
      | .error e => .error e
      | .ok tl2 => .ok (.cons (v2.getD .null) tl2)

/-- Step function SerializeJSONObject: own enumerable properties in order; a thrown
error aborts the whole stringify; a property serializing to `undefined`
is omitted from the output. -/
def serFields : JSFields → Except Unit JSFields
  | .fnil => .ok .fnil
  | .fcons k v tl =>
    match serProp v with
    | .error e => .error e
    | .ok v2 =>
      match serFields tl with
      | .error e => .error e
      | .ok tl2 =>
        match v2 with
        | none => .ok tl2
        | some w => .ok (.fcons k w tl2)

end

/-- The sanitizer `sanitizeExif(obj) = JSON.parse(JSON.stringify(obj, replacer))`.
`none` models the call throwing: either `JSON.stringify` threw (a BigInt
value), or it returned `undefined` and `JSON.parse(undefined)` threw a
`SyntaxError`. -/
def sanitizeExif (v : JSValue) : Option JSValue :=
  match serProp v with
  | .error _ => none
  | .ok none => none
  | .ok (some w) => some w

/-- The caller-supplied file handle: `file.name`, `file.type`, and the
outcome of `file.arrayBuffer()` (`error` models the read throwing). -/
structure FileInput : Type where
  name : String
  type : String
  readBytes : Except Unit (List Nat)

/-- Outcomes of the two external capabilities on the HEIC path:
`exifParse` is `await exifr.parse(file, {translateValues: false})`
(`error` models the parser throwing; `ok v` its resolved value, which may
be `JSValue.undef` when no metadata is found), and `transcode` is
`await heic2any(...)` followed by `await jpegBlob.arrayBuffer()` (outer
`error`: the transcoder throws; inner `error`: the blob read throws;
`ok (ok bytes)`: the transcoded JPEG bytes). -/
structure HeicEnv : Type where
  exifParse : Except Unit JSValue
  transcode : Except Unit (Except Unit (List Nat))

/-- The record returned by `ensureJpegBytes`. -/
structure ConversionResult : Type where
  jpeg : List Nat
  exif : JSValue

/-- The degraded result `{jpeg: new Uint8Array([]), exif: {}}` produced by
the `catch` block. -/
def degraded : ConversionResult := ⟨[], .obj .fnil⟩

/-- The lowercased character sequence of a filename, modelling
`file.name.toLowerCase()` (ASCII case folding). -/
def lowerName (s : String) : List Char := s.data.map Char.toLower

/-- The suffix test `file.name.toLowerCase().endsWith(".heic")`. -/
def endsWithHeic (s : String) : Bool :=
  List.isSuffixOf ".heic".data (lowerName s)

/-- The classifier
`file.type === "image/heic" || file.name.toLowerCase().endsWith(".heic")`. -/
def isHeic (file : FileInput) : Bool :=
  file.type == "image/heic" || endsWithHeic file.name

/-- The handler `ensureJpegBytes(file)`.  The single `try`/`catch` of the source is
embedded by returning `degraded` on every path on which the JavaScript
would throw: the byte read of the passthrough branch, `exifr.parse`,
`heic2any`, the transcoded blob's byte read, and `sanitizeExif` (in the
source, `sanitizeExif` is evaluated while building the final return
object, after the transcoded bytes have been read). -/
def ensureJpegBytes (file : FileInput) (env : HeicEnv) : ConversionResult :=
  if !isHeic file then
    match file.readBytes with
    | .error _ => degraded
    | .ok bytes => ⟨bytes, .obj .fnil⟩
  else
    match env.exifParse with
    | .error _ => degraded
    | .ok exifObj =>
      match env.transcode with
      | .error _ => degraded
      | .ok blobRead =>
        match blobRead with
        | .error _ => degraded
        | .ok finalBytes =>
          match sanitizeExif exifObj with
          | none => degraded
          | some e => ⟨finalBytes, e⟩

/-- Whether some step of `ensureJpegBytes` throws on the given input: the
passthrough byte read, or — on the HEIC path, in source order — metadata
extraction, transcoding, the blob byte read, or sanitization. -/
def stepFailed (file : FileInput) (env : HeicEnv) : Bool :=
  if !isHeic file then
    match file.readBytes with
    | .error _ => true
    | .ok _ => false
  else
    match env.exifParse with
    | .error _ => true
    | .ok exifObj =>
      match env.transcode with
      | .error _ => true
      | .ok blobRead =>
        match blobRead with
        | .error _ => true
        | .ok _ => (sanitizeExif exifObj).isNone

mutual

/-- A value already in the image of the JSON round trip: a JSON value with
no `undefined`, no non-finite number, no typed array and no BigInt array
anywhere. -/
def isPure : JSValue → Bool
  | .null => true
  | .undef => false
  | .boolV _ => true
  | .num (some _) => true
  | .num none => false
  | .str _ => true
  | .arr l => isPureList l
  | .obj fs => isPureFields fs
  | .typedArr _ _ => false
  | .bigArr _ _ => false

/-- Conjunction of `isPure` over the elements of an array. -/
def isPureList : JSList → Bool
  | .nil => true
  | .cons v tl => isPure v && isPureList tl

/-- Conjunction of `isPure` over the property values of an object. -/
def isPureFields : JSFields → Bool
  | .fnil => true
  | .fcons _ v tl => isPure v && isPureFields tl

end

mutual

/-- A serializable metadata tree in the sense of §4.4 of the spec: numbers,
strings, booleans, null, nested objects and arrays, and numeric typed
arrays all of whose elements are finite — no `undefined`, no non-finite
number, no BigInt array. -/
def goodInput : JSValue → Bool
  | .null => true
  | .undef => false
  | .boolV _ => true
  | .num (some _) => true
  | .num none => false
  | .str _ => true
  | .arr l => goodInputList l
  | .obj fs => goodInputFields fs
  | .typedArr _ elems => elems.all Option.isSome
  | .bigArr _ _ => false

/-- Conjunction of `goodInput` over the elements of an array. -/
def goodInputList : JSList → Bool
  | .nil => true
  | .cons v tl => goodInput v && goodInputList tl

/-- Conjunction of `goodInput` over the property values of an object. -/
def goodInputFields : JSFields → Bool
  | .fnil => true
  | .fcons _ v tl => goodInput v && goodInputFields tl

end

mutual

/-- Modelled from the spec's words (§4.4, §8): "any fixed-width numeric
buffer instance is replaced by a plain ordered sequence of its numeric
elements (one entry per element, preserving order)" while the sanitizer
"preserves the shape of the rest of the tree".  Used only to compare the
source-derived `sanitizeExif` against the specified behaviour. -/
def sanitizeSpec : JSValue → JSValue
  | .typedArr _ elems => .arr (ofList (elems.map JSValue.num))
  | .arr l => .arr (sanitizeSpecList l)
  | .obj fs => .obj (sanitizeSpecFields fs)
  | v => v

/-- Pointwise `sanitizeSpec` on the elements of an array. -/
def sanitizeSpecList : JSList → JSList
  | .nil => .nil
  | .cons v tl => .cons (sanitizeSpec v) (sanitizeSpecList tl)

/-- Pointwise `sanitizeSpec` on the property values of an object. -/
def sanitizeSpecFields : JSFields → JSFields
  | .fnil => .fnil
  | .fcons k v tl => .fcons k (sanitizeSpec v) (sanitizeSpecFields tl)

end

mutual

/-- Whether the tree contains, at any depth, a non-empty BigInt-element
buffer (`BigInt64Array` / `BigUint64Array` with at least one element). -/
def hasBigIntBuf : JSValue → Bool
  | .arr l => hasBigIntBufList l
  | .obj fs => hasBigIntBufFields fs
  | .bigArr _ (_ :: _) => true
  | _ => false

/-- Disjunction of `hasBigIntBuf` over the elements of an array. -/
def hasBigIntBufList : JSList → Bool
  | .nil => false
  | .cons v tl => hasBigIntBuf v || hasBigIntBufList tl

/-- Disjunction of `hasBigIntBuf` over the property values of an object. -/
def hasBigIntBufFields : JSFields → Bool
  | .fnil => false
  | .fcons _ v tl => hasBigIntBuf v || hasBigIntBufFields tl

end

/-- A concrete serializable metadata tree with typed-array buffers at two
nesting depths, used to instantiate the sanitizer theorems. -/
def exampleTree : JSValue :=
  .obj (.fcons "Make" (.str "Apple")
    (.fcons "BitsPerSample" (.typedArr .uint16 [some 8, some 8, some 8])
      (.fcons "nested"
        (.arr (.cons (.typedArr .int32 [some (-5), some 7])
          (.cons (.num (some 42)) .nil)))
        .fnil)))

/-- Serializing the plain array that the replacer substitutes for a typed
array emits each buffer element through `jsonNum`. -/
theorem serList_ofList_num (es : List (Option Int)) :
    serList (ofList (es.map JSValue.num)) = .ok (ofList (es.map jsonNum)) := by
  induction es with
  | nil => rfl
  | cons e tl ih =>
    cases e <;> simp [ofList, serList, serProp, ih, jsonNum, Option.getD]

/-- Justification for inlining the replacer into `serProp`: serializing a
value is the same as serializing its replacement. -/
theorem serProp_replacer (v : JSValue) : serProp v = serProp (replacer v) := by
  cases v with
  | typedArr k elems => simp [replacer, serProp, serList_ofList_num]
  | _ => rfl

mutual

/-- A pure JSON value serializes to itself. -/
theorem serProp_of_pure : (v : JSValue) → isPure v = true → serProp v = .ok (some v)
  | .null, _ => rfl
  | .undef, h => Bool.noConfusion h
  | .boolV _, _ => rfl
  | .num (some _), _ => rfl
  | .num none, h => Bool.noConfusion h
  | .str _, _ => rfl
  | .arr l, h => by
    have hl := serList_of_pure l (by simpa [isPure] using h)
    simp [serProp, hl]
  | .obj fs, h => by
    have hf := serFields_of_pure fs (by simpa [isPure] using h)
    simp [serProp, hf]
  | .typedArr _ _, h => Bool.noConfusion h
  | .bigArr _ _, h => Bool.noConfusion h

/-- A list of pure JSON values serializes to itself. -/
theorem serList_of_pure : (l : JSList) → isPureList l = true → serList l = .ok l
  | .nil, _ => rfl
  | .cons v tl, h => by
    have h2 : isPure v = true ∧ isPureList tl = true := by simpa [isPureList] using h
    have hv := serProp_of_pure v h2.1
    have ht := serList_of_pure tl h2.2
    simp [serList, hv, ht, Option.getD]

/-- Pure JSON object properties serialize to themselves. -/
theorem serFields_of_pure : (fs : JSFields) → isPureFields fs = true → serFields fs = .ok fs
  | .fnil, _ => rfl
  | .fcons k v tl, h => by
    have h2 : isPure v = true ∧ isPureFields tl = true := by simpa [isPureFields] using h
    have hv := serProp_of_pure v h2.1
    have ht := serFields_of_pure tl h2.2
    simp [serFields, hv, ht]

end

/-- The array substituted for a typed array is pure JSON. -/
theorem isPureList_jsonNum (es : List (Option Int)) :
    isPureList (ofList (es.map jsonNum)) = true := by
  induction es with
  | nil => rfl
  | cons e tl ih => cases e <;> simp [ofList, jsonNum, isPureList, isPure, ih]

mutual

/-- Whatever the round trip produces for a property is pure JSON. -/
theorem serProp_pure : (v : JSValue) → (w : JSValue) → serProp v = .ok (some w) → isPure w = true
  | .null, _, h => by simp [serProp] at h; simp [← h, isPure]
  | .undef, _, h => by simp [serProp] at h
  | .boolV b, _, h => by simp [serProp] at h; simp [← h, isPure]
  | .num (some i), _, h => by simp [serProp] at h; simp [← h, isPure]
  | .num none, _, h => by simp [serProp] at h; simp [← h, isPure]
  | .str s, _, h => by simp [serProp] at h; simp [← h, isPure]
  | .arr l, w, h => by
    cases hl : serList l with
    | error e => simp [serProp, hl] at h
    | ok l2 =>
      have := serList_pure l l2 hl
      simp [serProp, hl] at h
      simp [← h, isPure, this]
  | .obj fs, w, h => by
    cases hf : serFields fs with
    | error e => simp [serProp, hf] at h
    | ok fs2 =>
      have := serFields_pure fs fs2 hf
      simp [serProp, hf] at h
      simp [← h, isPure, this]
  | .typedArr k elems, w, h => by
    simp [serProp] at h
    simp [← h, isPure, isPureList_jsonNum]
  | .bigArr s [], w, h => by simp [serProp] at h; simp [← h, isPure, isPureFields]
  | .bigArr s (e :: tl), w, h => by simp [serProp] at h

/-- Whatever the round trip produces for an array is pure JSON. -/
theorem serList_pure : (l : JSList) → (l2 : JSList) → serList l = .ok l2 → isPureList l2 = true
  | .nil, _, h => by simp [serList] at h; simp [← h, isPureList]
  | .cons v tl, l2, h => by
    cases hv : serProp v with
    | error e => simp [serList, hv] at h
    | ok v2 =>
      cases ht : serList tl with
      | error e => simp [serList, hv, ht] at h
      | ok tl2 =>
        have htp := serList_pure tl tl2 ht
        have hvp : isPure (v2.getD .null) = true := by
          cases v2 with
          | none => rfl
          | some w => exact serProp_pure v w hv
        simp [serList, hv, ht] at h
        simp [← h, isPureList, htp, hvp]

/-- Whatever the round trip produces for object properties is pure JSON. -/
theorem serFields_pure : (fs : JSFields) → (fs2 : JSFields) → serFields fs = .ok fs2 → isPureFields fs2 = true
  | .fnil, _, h => by simp [serFields] at h; simp [← h, isPureFields]
  | .fcons k v tl, fs2, h => by
    cases hv : serProp v with
    | error e => simp [serFields, hv] at h
    | ok v2 =>
      cases ht : serFields tl with
      | error e => simp [serFields, hv, ht] at h
      | ok tl2 =>
        have htp := serFields_pure tl tl2 ht
        cases v2 with
        | none =>
          simp [serFields, hv, ht] at h
          simp [← h, htp]
        | some w =>
          have hvp := serProp_pure v w hv
          simp [serFields, hv, ht] at h
          simp [← h, isPureFields, htp, hvp]

end

mutual

/-- Reaching a non-empty BigInt buffer makes the stringify throw. -/
theorem serProp_bigErr : (v : JSValue) → hasBigIntBuf v = true → serProp v = .error ()
  | .null, h => Bool.noConfusion h
  | .undef, h => Bool.noConfusion h
  | .boolV _, h => Bool.noConfusion h
  | .num (some _), h => Bool.noConfusion h
  | .num none, h => Bool.noConfusion h
  | .str _, h => Bool.noConfusion h
  | .arr l, h => by
    have hl := serList_bigErr l (by simpa [hasBigIntBuf] using h)
    simp [serProp, hl]
  | .obj fs, h => by
    have hf := serFields_bigErr fs (by simpa [hasBigIntBuf] using h)
    simp [serProp, hf]
  | .typedArr _ _, h => Bool.noConfusion h
  | .bigArr _ [], h => Bool.noConfusion h
  | .bigArr _ (_ :: _), _ => rfl

/-- Reaching a non-empty BigInt buffer inside an array makes the stringify
throw. -/
theorem serList_bigErr : (l : JSList) → hasBigIntBufList l = true → serList l = .error ()
  | .cons v tl, h => by
    have h2 : hasBigIntBuf v = true ∨ hasBigIntBufList tl = true := by
      simpa [hasBigIntBufList] using h
    cases h2 with
    | inl hv => simp [serList, serProp_bigErr v hv]
    | inr ht =>
      have htl := serList_bigErr tl ht
      cases hv : serProp v with
      | error e => simp [serList, hv]
      | ok v2 => simp [serList, hv, htl]

/-- Reaching a non-empty BigInt buffer inside an object makes the
stringify throw. -/
theorem serFields_bigErr : (fs : JSFields) → hasBigIntBufFields fs = true → serFields fs = .error ()
  | .fcons k v tl, h => by
    have h2 : hasBigIntBuf v = true ∨ hasBigIntBufFields tl = true := by
      simpa [hasBigIntBufFields] using h
    cases h2 with
    | inl hv => simp [serFields, serProp_bigErr v hv]
    | inr ht =>
      have htl := serFields_bigErr tl ht
      cases hv : serProp v with
      | error e => simp [serFields, hv]
      | ok v2 => simp [serFields, hv, htl]

end

mutual

/-- Without a non-empty BigInt buffer the stringify never throws. -/
theorem serProp_noBig : (v : JSValue) → hasBigIntBuf v = false → ∃ r, serProp v = .ok r
  | .null, _ => ⟨some .null, rfl⟩
  | .undef, _ => ⟨none, rfl⟩
  | .boolV b, _ => ⟨some (.boolV b), rfl⟩
  | .num (some i), _ => ⟨some (.num (some i)), rfl⟩
  | .num none, _ => ⟨some .null, rfl⟩
  | .str s, _ => ⟨some (.str s), rfl⟩
  | .arr l, h => by
    obtain ⟨l2, hl⟩ := serList_noBig l (by simpa [hasBigIntBuf] using h)
    exact ⟨some (.arr l2), by simp [serProp, hl]⟩
  | .obj fs, h => by
    obtain ⟨fs2, hf⟩ := serFields_noBig fs (by simpa [hasBigIntBuf] using h)
    exact ⟨some (.obj fs2), by simp [serProp, hf]⟩
  | .typedArr k elems, _ => ⟨some (.arr (ofList (elems.map jsonNum))), rfl⟩
  | .bigArr _ [], _ => ⟨some (.obj .fnil), rfl⟩
  | .bigArr _ (_ :: _), h => Bool.noConfusion h

/-- Without a non-empty BigInt buffer an array serializes without
throwing. -/
theorem serList_noBig : (l : JSList) → hasBigIntBufList l = false → ∃ l2, serList l = .ok l2
  | .nil, _ => ⟨.nil, rfl⟩
  | .cons v tl, h => by
    have h2 : hasBigIntBuf v = false ∧ hasBigIntBufList tl = false := by
      simpa [hasBigIntBufList] using h
    obtain ⟨v2, hv⟩ := serProp_noBig v h2.1
    obtain ⟨tl2, ht⟩ := serList_noBig tl h2.2
    exact ⟨.cons (v2.getD .null) tl2, by simp [serList, hv, ht]⟩

/-- Without a non-empty BigInt buffer an object serializes without
throwing. -/
theorem serFields_noBig : (fs : JSFields) → hasBigIntBufFields fs = false → ∃ fs2, serFields fs = .ok fs2
  | .fnil, _ => ⟨.fnil, rfl⟩
  | .fcons k v tl, h => by
    have h2 : hasBigIntBuf v = false ∧ hasBigIntBufFields tl = false := by
      simpa [hasBigIntBufFields] using h
    obtain ⟨v2, hv⟩ := serProp_noBig v h2.1
    obtain ⟨tl2, ht⟩ := serFields_noBig tl h2.2
    cases v2 with
    | none => exact ⟨tl2, by simp [serFields, hv, ht]⟩
    | some w => exact ⟨.fcons k w tl2, by simp [serFields, hv, ht]⟩

end

/-- The stringify returns `undefined` at the root exactly when the root
value itself is `undefined`. -/
theorem serProp_ok_none_iff (v : JSValue) : serProp v = .ok none ↔ v = .undef := by
  cases v with
  | null => simp [serProp]
  | undef => simp [serProp]
  | boolV b => simp [serProp]
  | num o => cases o <;> simp [serProp]
  | str s => simp [serProp]
  | arr l => cases hl : serList l <;> simp [serProp, hl]
  | obj fs => cases hf : serFields fs <;> simp [serProp, hf]
  | typedArr k elems => simp [serProp]
  | bigArr s elems => cases elems <;> simp [serProp]

/-- On all-finite buffer elements, the emitted numbers are exactly the
buffer's numbers. -/
theorem map_jsonNum_of_finite (es : List (Option Int)) (h : es.all Option.isSome = true) :
    es.map jsonNum = es.map JSValue.num := by
  induction es with
  | nil => rfl
  | cons e tl ih =>
    simp only [List.all_cons, Bool.and_eq_true] at h
    cases e with
    | none => simp [Option.isSome] at h
    | some i => simp [jsonNum, ih h.2]

mutual

/-- On serializable trees with all-finite buffer elements, the round trip
computes exactly the spec-side sanitizer. -/
theorem serProp_good : (v : JSValue) → goodInput v = true → serProp v = .ok (some (sanitizeSpec v))
  | .null, _ => rfl
  | .undef, h => Bool.noConfusion h
  | .boolV _, _ => rfl
  | .num (some _), _ => rfl
  | .num none, h => Bool.noConfusion h
  | .str _, _ => rfl
  | .arr l, h => by
    have hl := serList_good l (by simpa [goodInput] using h)
    simp [serProp, hl, sanitizeSpec]
  | .obj fs, h => by
    have hf := serFields_good fs (by simpa [goodInput] using h)
    simp [serProp, hf, sanitizeSpec]
  | .typedArr k elems, h => by
    have he : elems.all Option.isSome = true := by simpa [goodInput] using h
    simp [serProp, sanitizeSpec, map_jsonNum_of_finite elems he]
  | .bigArr _ _, h => Bool.noConfusion h

/-- List version of `serProp_good`. -/
theorem serList_good : (l : JSList) → goodInputList l = true → serList l = .ok (sanitizeSpecList l)
  | .nil, _ => rfl
  | .cons v tl, h => by
    have h2 : goodInput v = true ∧ goodInputList tl = true := by
      simpa [goodInputList] using h
    have hv := serProp_good v h2.1
    have ht := serList_good tl h2.2
    simp [serList, hv, ht, sanitizeSpecList, Option.getD]

/-- Object version of `serProp_good`. -/
theorem serFields_good : (fs : JSFields) → goodInputFields fs = true → serFields fs = .ok (sanitizeSpecFields fs)
  | .fnil, _ => rfl
  | .fcons k v tl, h => by
    have h2 : goodInput v = true ∧ goodInputFields tl = true := by
      simpa [goodInputFields] using h
    have hv := serProp_good v h2.1
    have ht := serFields_good tl h2.2
    simp [serFields, hv, ht, sanitizeSpecFields]

end

/-- C1: every failure inside `ensureJpegBytes` — the passthrough byte read
throwing, or, on the HEIC path, metadata extraction throwing, transcoding
throwing, the transcoded-blob byte read throwing, or sanitization throwing
— is caught by the single top-level boundary and converted to exactly the
degraded result `{jpeg: empty byte sequence, exif: empty mapping}`,
regardless of what any earlier step returned; no error value reaches the
caller (the function is total by construction). -/
theorem ensureJpegBytes_error_boundary (file : FileInput) (env : HeicEnv)
    (h : stepFailed file env = true) : ensureJpegBytes file env = degraded := by
  cases hH : isHeic file with
  | false =>
    simp only [stepFailed, hH, Bool.not_false, if_true] at h
    simp only [ensureJpegBytes, hH, Bool.not_false, if_true]
    cases hR : file.readBytes with
    | error e => rfl
    | ok bytes => simp [hR] at h
  | true =>
    simp only [stepFailed, hH, Bool.not_true, if_false] at h
    simp only [ensureJpegBytes, hH, Bool.not_true, if_false]
    cases hP : env.exifParse with
    | error e => rfl
    | ok exifObj =>
      simp only [hP] at h
      cases hT : env.transcode with
      | error e => rfl
      | ok blobRead =>
        simp only [hT] at h
        cases hI : blobRead with
        | error e => rfl
        | ok bytes =>
          simp only [hI] at h
          cases hS : sanitizeExif exifObj with
          | none => simp [hS]
          | some w => simp [hS] at h

/-- Witness for C1: a HEIC input whose transcoding step throws after
metadata extraction succeeded yields exactly the degraded result. -/
theorem ensureJpegBytes_error_boundary_witness :
    stepFailed ⟨"a.heic", "image/heic", .ok [9]⟩ ⟨.ok (.obj .fnil), .error ()⟩ = true ∧
    ensureJpegBytes ⟨"a.heic", "image/heic", .ok [9]⟩ ⟨.ok (.obj .fnil), .error ()⟩ = degraded :=
  ⟨rfl, ensureJpegBytes_error_boundary _ _ rfl⟩

/-- C2: an input not classified as HEIC whose byte read succeeds is passed
through: the result's `jpeg` is exactly the raw input bytes and `exif` is
the empty mapping; the result does not depend on the metadata parser or
the transcoder (the environment `env` is arbitrary and absent from the
right-hand side). -/
theorem ensureJpegBytes_passthrough (file : FileInput) (env : HeicEnv) (bytes : List Nat)
    (h1 : isHeic file = false) (h2 : file.readBytes = .ok bytes) :
    ensureJpegBytes file env = ⟨bytes, .obj .fnil⟩ := by
  simp [ensureJpegBytes, h1, h2]

/-- Witness for C2: a JPEG-typed file with bytes `[0xFF, 0xD8, 0xFF]`
comes back unchanged with empty metadata, in an environment where both
external capabilities would throw if invoked. -/
theorem ensureJpegBytes_passthrough_witness :
    isHeic ⟨"pic.jpg", "image/jpeg", .ok [255, 216, 255]⟩ = false ∧
    ensureJpegBytes ⟨"pic.jpg", "image/jpeg", .ok [255, 216, 255]⟩ ⟨.error (), .error ()⟩ =
      ⟨[255, 216, 255], .obj .fnil⟩ :=
  ⟨by decide, ensureJpegBytes_passthrough _ _ _ (by decide) rfl⟩

/-- C3: an input is classified as HEIC iff its declared MIME type equals
`"image/heic"` or its filename, lowercased, ends with `".heic"`;
classification depends only on the declared type and filename, never the
bytes; and the file `photo.HEIC` with an empty declared MIME type is
classified as HEIC. -/
theorem isHeic_classification (file : FileInput) :
    (isHeic file = true ↔
      (file.type = "image/heic" ∨ ∃ t, t ++ ".heic".data = lowerName file.name))
    ∧ (∀ g : FileInput, g.name = file.name → g.type = file.type → isHeic g = isHeic file)
    ∧ isHeic ⟨"photo.HEIC", "", .ok [1, 2, 3]⟩ = true := by
  refine ⟨?_, ?_, by decide⟩
  · simp [isHeic, endsWithHeic, List.isSuffixOf_iff_suffix, List.IsSuffix]
  · intro g hn ht
    simp [isHeic, endsWithHeic, hn, ht]

/-- Counterexample for C4: a metadata tree holding a `Float64Array` whose
single element is non-finite (`NaN`, modelled `num none`) is sanitized to
a sequence whose single entry is `null`, not the buffer's element — the
resulting sequence's entries do not equal the buffer's elements. -/
theorem sanitizeExif_nonfinite_element_cx :
    sanitizeExif (.obj (.fcons "vals" (.typedArr .float64 [none]) .fnil)) =
      some (.obj (.fcons "vals" (.arr (.cons .null .nil)) .fnil)) ∧
    JSValue.arr (.cons .null .nil) ≠ .arr (.cons (.num none) .nil) := by
  refine ⟨rfl, ?_⟩
  intro h
  injection h with h2
  injection h2 with h3 h4
  exact JSValue.noConfusion h3

/-- C4 as amended: on every serializable metadata tree all of whose buffer
elements are finite, `sanitizeExif` succeeds and computes exactly the
spec-side `sanitizeSpec`: every fixed-width numeric buffer at any depth is
replaced by the plain ordered sequence of its elements in original order,
and the rest of the tree keeps its shape (a non-finite buffer element
would instead come out as `null`, per the counterexample). -/
theorem sanitizeExif_buffer_replacement (v : JSValue) (h : goodInput v = true) :
    sanitizeExif v = some (sanitizeSpec v) := by
  simp [sanitizeExif, serProp_good v h]

/-- Witness for C4: the sanitizer on a concrete tree with buffers at two
depths. -/
theorem sanitizeExif_buffer_replacement_witness :
    goodInput exampleTree = true ∧ sanitizeExif exampleTree = some (sanitizeSpec exampleTree) :=
  ⟨rfl, sanitizeExif_buffer_replacement exampleTree rfl⟩

/-- C5 (code bug): when metadata extraction resolves with no metadata
(`undefined`, as the parser reports absence) and transcoding and the byte
read succeed with non-empty bytes, the operation nevertheless fails:
`sanitizeExif(undefined)` throws (`JSON.parse(undefined)` is a
`SyntaxError`), so the boundary returns `{jpeg: [], exif: {}}` instead of
the non-empty transcoded bytes the spec promises. -/
theorem ensureJpegBytes_absent_metadata_bug :
    sanitizeExif .undef = none ∧
    ensureJpegBytes ⟨"photo.heic", "image/heic", .ok [9]⟩
        ⟨.ok .undef, .ok (.ok [1, 2, 3])⟩ = degraded :=
  ⟨rfl, rfl⟩

/-- Counterexample for C6: when the metadata parser throws on a HEIC input
whose transcoding would succeed with bytes `[1, 2, 3]`, the operation does
not continue with empty metadata — it returns the degraded result, whose
`jpeg` is not the transcoded bytes. -/
theorem extraction_throw_fatal_cx :
    ensureJpegBytes ⟨"a.heic", "image/heic", .ok [9]⟩
        ⟨.error (), .ok (.ok [1, 2, 3])⟩ = degraded ∧
    degraded.jpeg ≠ [1, 2, 3] := ⟨rfl, by decide⟩

/-- C6 as amended: a metadata-extraction exception is fatal to the HEIC
conversion — it is caught by the top-level boundary and the whole
operation degrades to `{jpeg: [], exif: {}}` (only an empty or absent
extraction result, not an exception, lets the operation continue to
transcoding). -/
theorem extraction_throw_degraded (file : FileInput) (env : HeicEnv)
    (h1 : isHeic file = true) (h2 : env.exifParse = .error ()) :
    ensureJpegBytes file env = degraded := by
  simp [ensureJpegBytes, h1, h2]

/-- Witness for C6's amended theorem at a concrete HEIC input. -/
theorem extraction_throw_degraded_witness :
    isHeic ⟨"b.heic", "image/heic", .ok [9]⟩ = true ∧
    ensureJpegBytes ⟨"b.heic", "image/heic", .ok [9]⟩ ⟨.error (), .ok (.ok [4, 5])⟩ = degraded :=
  ⟨by decide, extraction_throw_degraded _ _ (by decide) rfl⟩

/-- C7: `sanitizeExif` is idempotent — applying it twice (composition in
the partiality monad, since sanitization can throw) gives the same result
as applying it once, for every metadata tree. -/
theorem sanitizeExif_idempotent (v : JSValue) :
    (sanitizeExif v).bind sanitizeExif = sanitizeExif v := by
  cases hs : serProp v with
  | error e => simp [sanitizeExif, hs]
  | ok r =>
    cases r with
    | none => simp [sanitizeExif, hs]
    | some w =>
      have hw := serProp_pure v w hs
      have h2 := serProp_of_pure w hw
      simp [sanitizeExif, hs, h2]

/-- Witness for C7 at a concrete tree containing a buffer. -/
theorem sanitizeExif_idempotent_witness :
    (sanitizeExif exampleTree).bind sanitizeExif = sanitizeExif exampleTree :=
  sanitizeExif_idempotent exampleTree

/-- Counterexample for C8: a metadata tree containing a non-finite number
does not make sanitization fail — the sanitize succeeds, with the
non-finite value altered to `null`. -/
theorem sanitizeExif_nonfinite_ok_cx :
    sanitizeExif (.obj (.fcons "a" (.num none) .fnil)) =
      some (.obj (.fcons "a" .null .fnil)) ∧
    some (JSValue.obj (.fcons "a" .null .fnil)) ≠ (none : Option JSValue) := by
  refine ⟨rfl, ?_⟩
  intro h
  exact Option.noConfusion h

/-- C8 as amended: a non-finite number never fails sanitization (it is
serialized as the literal `null`); the whole sanitize operation fails
exactly when the tree contains a non-empty BigInt-element buffer or the
tree itself is `undefined`. -/
theorem sanitizeExif_failure_characterization (v : JSValue) :
    sanitizeExif v = none ↔ (hasBigIntBuf v = true ∨ v = .undef) := by
  constructor
  · intro h
    by_contra hc
    push_neg at hc
    obtain ⟨hb, hu⟩ := hc
    have hb2 : hasBigIntBuf v = false := by
      revert hb; cases hasBigIntBuf v <;> simp
    obtain ⟨r, hr⟩ := serProp_noBig v hb2
    cases r with
    | none => exact hu ((serProp_ok_none_iff v).1 hr)
    | some w => simp [sanitizeExif, hr] at h
  · intro h
    cases h with
    | inl hb => simp [sanitizeExif, serProp_bigErr v hb]
    | inr hu => subst hu; rfl

/-- C9: the MIME side of the classification is an exact case-sensitive
comparison with `"image/heic"`: any input whose declared type differs
from that exact string and whose lowercased filename does not end in
`".heic"` is classified non-HEIC and takes the passthrough path,
returning the raw bytes with empty metadata. -/
theorem mime_exact_match (file : FileInput) (env : HeicEnv) (bytes : List Nat)
    (h1 : file.type ≠ "image/heic") (h2 : endsWithHeic file.name = false)
    (h3 : file.readBytes = .ok bytes) :
    isHeic file = false ∧ ensureJpegBytes file env = ⟨bytes, .obj .fnil⟩ := by
  have hH : isHeic file = false := by
    simp [isHeic, h2, beq_eq_false_iff_ne, h1]
  exact ⟨hH, by simp [ensureJpegBytes, hH, h3]⟩

/-- Witness for C9: declared type `"IMAGE/HEIC"` (uppercase) on
`photo.jpg` is non-HEIC and passes the bytes through unchanged. -/
theorem mime_exact_match_witness :
    ("IMAGE/HEIC" : String) ≠ "image/heic" ∧
    endsWithHeic "photo.jpg" = false ∧
    isHeic ⟨"photo.jpg", "IMAGE/HEIC", .ok [255, 216, 255]⟩ = false ∧
    ensureJpegBytes ⟨"photo.jpg", "IMAGE/HEIC", .ok [255, 216, 255]⟩ ⟨.error (), .error ()⟩ =
      ⟨[255, 216, 255], .obj .fnil⟩ := by
  have h := mime_exact_match ⟨"photo.jpg", "IMAGE/HEIC", .ok [255, 216, 255]⟩
    ⟨.error (), .error ()⟩ [255, 216, 255] (by decide) (by decide) rfl
  exact ⟨by decide, by decide, h.1, h.2⟩

/-- Counterexample for C10: a metadata tree containing a BigInt-element
buffer with no elements does not make sanitization throw — the empty
`BigInt64Array` serializes as the empty object, sanitization succeeds,
and at the `ensureJpegBytes` boundary the transcoded bytes are returned
rather than the degraded result. -/
theorem bigIntBuf_empty_cx :
    sanitizeExif (.bigArr true []) = some (.obj .fnil) ∧
    ensureJpegBytes ⟨"a.heic", "image/heic", .ok [9]⟩
        ⟨.ok (.bigArr true []), .ok (.ok [1, 2, 3])⟩ = ⟨[1, 2, 3], .obj .fnil⟩ :=
  ⟨rfl, rfl⟩

/-- C10 as amended: a metadata tree containing a non-empty BigInt-element
buffer (at any depth) makes sanitization throw, so at the
`ensureJpegBytes` boundary such metadata yields the degraded result
`{jpeg: [], exif: {}}` even when transcoding succeeded (an empty BigInt
buffer instead serializes as an empty object, per the counterexample). -/
theorem bigIntBuf_degraded (file : FileInput) (env : HeicEnv) (v : JSValue) (bytes : List Nat)
    (h1 : isHeic file = true) (h2 : env.exifParse = .ok v)
    (h3 : hasBigIntBuf v = true) (h4 : env.transcode = .ok (.ok bytes)) :
    sanitizeExif v = none ∧ ensureJpegBytes file env = degraded := by
  have hs : sanitizeExif v = none := by simp [sanitizeExif, serProp_bigErr v h3]
  exact ⟨hs, by simp [ensureJpegBytes, h1, h2, h4, hs]⟩

/-- Witness for C10's amended theorem: a `BigUint64Array` with one element
nested in the metadata degrades the whole conversion. -/
theorem bigIntBuf_degraded_witness :
    isHeic ⟨"c.heic", "image/heic", .ok [9]⟩ = true ∧
    hasBigIntBuf (.obj (.fcons "big" (.bigArr false [7]) .fnil)) = true ∧
    sanitizeExif (.obj (.fcons "big" (.bigArr false [7]) .fnil)) = none ∧
    ensureJpegBytes ⟨"c.heic", "image/heic", .ok [9]⟩
      ⟨.ok (.obj (.fcons "big" (.bigArr false [7]) .fnil)), .ok (.ok [1, 2, 3])⟩ = degraded := by
  have h := bigIntBuf_degraded ⟨"c.heic", "image/heic", .ok [9]⟩
    ⟨.ok (.obj (.fcons "big" (.bigArr false [7]) .fnil)), .ok (.ok [1, 2, 3])⟩
    (.obj (.fcons "big" (.bigArr false [7]) .fnil)) [1, 2, 3]
    (by decide) rfl rfl rfl
  exact ⟨by decide, rfl, h.1, h.2⟩
